import Mathlib

/-!
# Verification of the panifex recipe/artifact resolution engine

A shallow embedding, in Lean 4, of the core data model and algorithms of the
panifex build system (`src/panifex/`): the artifact model (`artifacts.py`,
`files.py`), the recipe staleness/resolution model (`recipes.py`), the error
aggregation operation (`errors.py`), the shell execution recipe (`shell.py`),
and the per-recipe locking protocol used by `Recipe.resolve`.

Conventions of the embedding:
* Python `datetime.timedelta` values are modelled by `TDelta`: either a finite
  ordinary value (an `Int`, e.g. seconds) or the distinguished maximum
  `timedelta.max`, written `TDelta.maxDelta`.
* Filesystem time is modelled by an ambient `now : Int` and per-file
  modification times `mtime : Option Int` (`none` = the file does not exist).
* Fallible operations return explicit outcome types rather than raising.
-/

/-- Model of Python `timedelta`: a finite delta or the maximal
`timedelta.max` value used by the artifact model as the "infinite" age. -/
inductive TDelta where
  | fin (n : Int)
  | maxDelta
deriving DecidableEq

namespace TDelta

/-- Comparison of timedeltas: `timedelta.max` is greater than or equal to
everything, finite deltas compare as integers. -/
def le : TDelta → TDelta → Bool
  | _, .maxDelta => true
  | .maxDelta, .fin _ => false
  | .fin a, .fin b => a ≤ b

/-- Python's binary `min` over timedeltas. -/
def minD (a b : TDelta) : TDelta := if a.le b then a else b

/-- Python's `min(xs)` over a list of timedeltas, with `timedelta.max` as the
value for the empty list (the artifact model only takes `min` of a non-empty
list, and returns `timedelta.max` for the empty case explicitly; since
`timedelta.max` is the neutral element of `minD` the two agree). -/
def listMin (xs : List TDelta) : TDelta := xs.foldr minD .maxDelta

theorem le_refl (a : TDelta) : a.le a = true := by
  cases a <;> simp [le]

theorem le_maxDelta (a : TDelta) : a.le .maxDelta = true := by
  cases a <;> simp [le]

theorem minD_maxDelta (a : TDelta) : minD a .maxDelta = a := by
  cases a <;> simp [minD, le]

end TDelta

/-- Embedding of the artifact class hierarchy of `artifacts.py` / `files.py`:
`NullArtifact`, `ValueArtifact` (payload modelled as an `Int`),
`FileArtifact` (a path plus its current modification time, `none` when the
file does not exist on disk), and `PolyArtifact` (holding its `_artifacts`
tuple). -/
inductive Artifact where
  | null
  | value (v : Int)
  | file (path : String) (mtime : Option Int)
  | poly (arts : List Artifact)

namespace Artifact

mutual
/-- Structural (value/content) equality of artifacts. -/
def beq : Artifact → Artifact → Bool
  | .null, .null => true
  | .value v, .value w => v == w
  | .file p m, .file q n => p == q && m == n
  | .poly as, .poly bs => beqList as bs
  | _, _ => false

/-- Pointwise `beq` over the member lists. -/
def beqList : List Artifact → List Artifact → Bool
  | [], [] => true
  | a :: as, b :: bs => beq a b && beqList as bs
  | _, _ => false
end

mutual
/-- `beq` decides propositional equality of artifacts. -/
theorem beq_iff : ∀ a b : Artifact, beq a b = true ↔ a = b
  | .null, b => by cases b <;> simp [beq]
  | .value v, b => by cases b <;> simp [beq]
  | .file p m, b => by cases b <;> simp [beq]
  | .poly as, b => by cases b <;> simp [beq, beqList_iff as _]

/-- `beqList` decides propositional equality of artifact lists. -/
theorem beqList_iff : ∀ as bs : List Artifact, beqList as bs = true ↔ as = bs
  | [], bs => by cases bs <;> simp [beqList]
  | a :: as, bs => by
      cases bs with
      | nil => simp [beqList]
      | cons b bs => simp [beqList, beq_iff a b, beqList_iff as bs]
end

mutual
/-- `Artifact.exists`:
`NullArtifact.exists` is `False` (artifacts.py line 100);
`ValueArtifact.exists` is `True` (line 81);
`FileArtifact.exists` is `self.path.exists()` (files.py line 36), modelled as
the presence of a modification time;
`PolyArtifact.exists` is `all(a.exists for a in self._artifacts)`
(artifacts.py line 134). -/
def existsb : Artifact → Bool
  | .null => false
  | .value _ => true
  | .file _ m => m.isSome
  | .poly arts => existsbAll arts

/-- `all(a.exists for a in arts)`. -/
def existsbAll : List Artifact → Bool
  | [] => true
  | a :: rest => existsb a && existsbAll rest
end

mutual
/-- `Artifact.age` at ambient time `now`:
the base-class default is `timedelta.max` (artifacts.py line 50), inherited by
`NullArtifact` and `ValueArtifact`;
`FileArtifact.age` is `timedelta.max` when the file is absent, otherwise
`datetime.now() - mtime` (files.py lines 39-43);
`PolyArtifact.age` is `min(a.age for a in self._artifacts)` when non-empty,
otherwise `timedelta.max` (artifacts.py line 138). -/
def age (now : Int) : Artifact → TDelta
  | .null => .maxDelta
  | .value _ => .maxDelta
  | .file _ none => .maxDelta
  | .file _ (some t) => .fin (now - t)
  | .poly arts => TDelta.listMin (ageAll now arts)

/-- The list of the members' ages. -/
def ageAll (now : Int) : List Artifact → List TDelta
  | [] => []
  | a :: rest => age now a :: ageAll now rest
end

mutual
/-- `Artifact.is_null`: `False` by default (artifacts.py line 55), `True` for
`NullArtifact` (line 104); `PolyArtifact.is_null` is
`not any(not a.is_null for a in self._artifacts)` (line 174), i.e. all members
are null. -/
def isNull : Artifact → Bool
  | .null => true
  | .value _ => false
  | .file _ _ => false
  | .poly arts => isNullAll arts

/-- `not any(not a.is_null for a in arts)`, i.e. `all(a.is_null ...)`. -/
def isNullAll : List Artifact → Bool
  | [] => true
  | a :: rest => isNull a && isNullAll rest
end

mutual
/-- `PolyArtifact._find_leaves` (artifacts.py lines 117-125): for each
artifact, recurse into nested `PolyArtifact`s, skip null artifacts, and yield
everything else. -/
def findLeaves : List Artifact → List Artifact
  | [] => []
  | a :: rest => findLeavesOne a ++ findLeaves rest

/-- The contribution of a single artifact to `_find_leaves`: a nested
`PolyArtifact` contributes its own members' leaves; a null artifact is
skipped; any other artifact is yielded itself. -/
def findLeavesOne : Artifact → List Artifact
  | .poly arts => findLeaves arts
  | a => if isNull a then [] else [a]
end

/-- Modelled from the spec: `uniq` is imported by `artifacts.py` from
`panifex.util` but is absent from the sources under `src/`; the spec (§4.1)
requires Poly construction to "remove duplicates while preserving first-seen
order (deduplication by value/content equality, not by allocation identity)".
`uniq` keeps the first occurrence of each element, comparing by value. -/
def uniq : List Artifact → List Artifact
  | [] => []
  | a :: rest => a :: uniq (rest.filter (fun b => !beq b a))
termination_by l => l.length
decreasing_by
  simp only [List.length_cons]
  exact Nat.lt_succ_of_le (List.length_filter_le _ rest)

/-- `PolyArtifact.__init__` (artifacts.py line 128):
`self._artifacts = tuple(uniq(self._find_leaves(artifacts)))`. -/
def mkPoly (inputs : List Artifact) : Artifact :=
  .poly (uniq (findLeaves inputs))

/-- `PolyArtifact.leaves` (artifacts.py lines 166-168): the `_artifacts`
tuple. -/
def leaves : Artifact → List Artifact
  | .poly arts => arts
  | _ => []

end Artifact

namespace Artifact

mutual
/-- Spec-side notion of the transitive leaves of one artifact (spec §3,
"Poly: ... recursively flattened — nested Poly artifacts contribute their own
leaves, not themselves"; a Null artifact "represents nothing" and has no
leaves). -/
def specLeaves : Artifact → List Artifact
  | .null => []
  | .value v => [.value v]
  | .file p m => [.file p m]
  | .poly arts => specLeavesList arts

/-- Spec-side flattening of a list of artifacts into its transitive leaves,
in order. -/
def specLeavesList : List Artifact → List Artifact
  | [] => []
  | a :: rest => specLeaves a ++ specLeavesList rest
end

mutual
/-- An artifact built entirely from Null artifacts: a Null artifact itself, or
a Poly artifact all of whose members are built entirely from Null
artifacts. -/
def deepNull : Artifact → Bool
  | .null => true
  | .value _ => false
  | .file _ _ => false
  | .poly arts => deepNullAll arts

/-- All members are built entirely from Null artifacts. -/
def deepNullAll : List Artifact → Bool
  | [] => true
  | a :: rest => deepNull a && deepNullAll rest
end

mutual
/-- The code's generator `_find_leaves` agrees with the spec-side transitive
flattening. -/
theorem findLeaves_eq_specLeavesList :
    ∀ L : List Artifact, findLeaves L = specLeavesList L
  | [] => by simp [findLeaves, specLeavesList]
  | a :: rest => by
      simp [findLeaves, specLeavesList, findLeavesOne_eq_specLeaves a,
        findLeaves_eq_specLeavesList rest]

/-- One artifact's contribution to `_find_leaves` agrees with its spec-side
transitive leaves. -/
theorem findLeavesOne_eq_specLeaves :
    ∀ a : Artifact, findLeavesOne a = specLeaves a
  | .null => by simp [findLeavesOne, specLeaves, isNull]
  | .value v => by simp [findLeavesOne, specLeaves, isNull]
  | .file p m => by simp [findLeavesOne, specLeaves, isNull]
  | .poly arts => by
      simp [findLeavesOne, specLeaves, findLeaves_eq_specLeavesList arts]
end

mutual
/-- `_find_leaves` never yields a null artifact. -/
theorem isNull_of_mem_findLeaves :
    ∀ (L : List Artifact) (a : Artifact), a ∈ findLeaves L → isNull a = false
  | l :: rest, a => by
      simp only [findLeaves, List.mem_append]
      rintro (h | h)
      · exact isNull_of_mem_findLeavesOne l a h
      · exact isNull_of_mem_findLeaves rest a h
  | [], a => by simp [findLeaves]

/-- A single artifact's `_find_leaves` contribution never contains a null
artifact. -/
theorem isNull_of_mem_findLeavesOne :
    ∀ (x a : Artifact), a ∈ findLeavesOne x → isNull a = false
  | .poly arts, a => by
      simp only [findLeavesOne]
      exact isNull_of_mem_findLeaves arts a
  | .null, a => by simp [findLeavesOne, isNull]
  | .value v, a => by
      simp only [findLeavesOne, isNull, if_neg]
      rintro h
      simp only [Bool.false_eq_true, if_false, List.mem_singleton] at h
      subst h
      rfl
  | .file p m, a => by
      rintro h
      simp only [findLeavesOne, isNull, Bool.false_eq_true, if_false,
        List.mem_singleton] at h
      subst h
      rfl
end

mutual
/-- `_find_leaves` of inputs built entirely from Null artifacts is empty. -/
theorem findLeaves_eq_nil_of_deepNull :
    ∀ L : List Artifact, deepNullAll L = true → findLeaves L = []
  | [], _ => by simp [findLeaves]
  | a :: rest, h => by
      simp only [deepNullAll, Bool.and_eq_true] at h
      simp [findLeaves, findLeavesOne_eq_nil_of_deepNull a h.1,
        findLeaves_eq_nil_of_deepNull rest h.2]

/-- A single artifact built entirely from Null artifacts contributes no
leaves. -/
theorem findLeavesOne_eq_nil_of_deepNull :
    ∀ a : Artifact, deepNull a = true → findLeavesOne a = []
  | .null, _ => by simp [findLeavesOne, isNull]
  | .poly arts, h => by
      simp only [deepNull] at h
      simp only [findLeavesOne]
      exact findLeaves_eq_nil_of_deepNull arts h
end

/-- Members of `uniq l` are members of `l`. -/
theorem mem_uniq_subset : ∀ (l : List Artifact) (a : Artifact), a ∈ uniq l → a ∈ l
  | [], a => by simp [uniq]
  | b :: rest, a => by
      simp only [uniq, List.mem_cons]
      rintro (rfl | h)
      · exact Or.inl rfl
      · exact Or.inr (List.mem_of_mem_filter (mem_uniq_subset _ a h))
termination_by l => l.length
decreasing_by
  simp only [List.length_cons]
  exact Nat.lt_succ_of_le (List.length_filter_le _ rest)

end Artifact

/-- Embedding of `Recipe` (recipes.py lines 37-240): a display name (the code
uses `self.name or self.__class__.__name__`, modelled as an always-present
string), the recipe's own output artifact (`output`, default `NullArtifact`),
and the `_deps` list passed to `__init__`. -/
inductive Recipe where
  | mk (name : String) (output : Artifact) (deps : List Recipe)

namespace Recipe

/-- The recipe's sort/display name (`self.name or self.__class__.__name__`). -/
def name : Recipe → String
  | .mk n _ _ => n

/-- The recipe's own output artifact (`Recipe.output`, recipes.py line 216). -/
def output : Recipe → Artifact
  | .mk _ o _ => o

/-- The `_deps` list stored by `Recipe.__init__` (recipes.py line 41). -/
def deps : Recipe → List Recipe
  | .mk _ _ d => d

/-- `Recipe.dependencies` (recipes.py lines 227-231): returns `self._deps`. -/
def dependencies (r : Recipe) : List Recipe := r.deps

/-- `Recipe.direct_dependencies` (recipes.py lines 233-237):
`sorted(self._deps, key=lambda x: x.name or x.__class__.__name__)`.  Python's
`sorted` is a stable sort by the key; `List.insertionSort` with the key order
is also stable. -/
def directDependencies (r : Recipe) : List Recipe :=
  List.insertionSort (fun a b => a.name ≤ b.name) r.deps

/-- `PolyRecipe._find_output` (recipes.py lines 341-346) for a list of plain
(non-Poly) recipes: yield each member's output, skipping null outputs. -/
def findOutput : List Recipe → List Artifact
  | [] => []
  | r :: rest =>
      if Artifact.isNull r.output then findOutput rest
      else r.output :: findOutput rest

/-- `Recipe.input` (recipes.py lines 221-225):
`PolyRecipe(self.dependencies).output`, i.e.
`PolyArtifact(set(self._find_output()))` (recipes.py line 339).  The `set(..)`
iteration order is unspecified in Python; it is modelled as the generator
order (existence, age, and nullity of the resulting Poly artifact do not
depend on order or multiplicity). -/
def input (r : Recipe) : Artifact := Artifact.mkPoly (findOutput r.deps)

/-- `Recipe.is_done` (recipes.py lines 114-126):
`self.output.exists and self.output.age <= self.input.age`. -/
def isDone (now : Int) (r : Recipe) : Bool :=
  Artifact.existsb r.output &&
    TDelta.le (Artifact.age now r.output) (Artifact.age now (input r))

end Recipe

/-- C1: for every recipe, `is_done` is true iff the recipe's output artifact
exists and the output's age is at most the input's (combined dependency
outputs') age; in particular, a missing output makes `is_done` false
regardless of any dependency ages, and a file-output recipe whose output was
modified no earlier than its file dependency's output (`tD ≤ tR`) is done. -/
theorem isDone_iff_output_fresh (now : Int) (r : Recipe)
    (nm nm2 p q : String) (tR tD : Int) (h : tD ≤ tR) :
    (Recipe.isDone now r = true ↔
      Artifact.existsb r.output = true ∧
      TDelta.le (Artifact.age now r.output) (Artifact.age now (Recipe.input r)) = true) ∧
    (Artifact.existsb r.output = false → Recipe.isDone now r = false) ∧
    Recipe.isDone now
      (Recipe.mk nm (.file p (some tR)) [Recipe.mk nm2 (.file q (some tD)) []]) = true := by
  refine ⟨?_, ?_, ?_⟩
  · simp [Recipe.isDone]
  · intro h0
    simp [Recipe.isDone, h0]
  · simp [Recipe.isDone, Recipe.input, Recipe.findOutput, Recipe.deps, Recipe.output,
      Artifact.mkPoly, Artifact.findLeaves, Artifact.findLeavesOne, Artifact.uniq,
      Artifact.isNull, Artifact.existsb, Artifact.age, Artifact.ageAll,
      TDelta.listMin, TDelta.minD, TDelta.le]
    omega

/-- Witness for `isDone_iff_output_fresh` at concrete inputs: dependency
mtime 3 is at most output mtime 5, and the recipe is done. -/
theorem isDone_iff_output_fresh_witness :
    ((3 : Int) ≤ 5) ∧
    Recipe.isDone 100
      (Recipe.mk "out" (.file "o.txt" (some 5))
        [Recipe.mk "dep" (.file "i.txt" (some 3)) []]) = true :=
  ⟨by norm_num,
   (isDone_iff_output_fresh 100 (Recipe.mk "x" .null [])
      "out" "dep" "o.txt" "i.txt" 5 3 (by norm_num)).2.2⟩

/-- C4: constructing a `PolyArtifact` from an input list `L` (possibly with
duplicates and nested Poly artifacts) yields leaves equal to the
order-preserving, de-duplicated flattening of `L`'s transitive leaves;
nested Poly inputs contribute their own leaves rather than themselves, and
duplicates are identified by value/content equality (`Artifact.beq` decides
propositional equality, see `Artifact.beq_iff`). -/
theorem polyArtifact_leaves_eq_dedup_flatten (L : List Artifact) :
    Artifact.leaves (Artifact.mkPoly L) =
      Artifact.uniq (Artifact.specLeavesList L) := by
  simp [Artifact.mkPoly, Artifact.leaves, Artifact.findLeaves_eq_specLeavesList]

/-- C10: `PolyArtifact` construction silently discards Null artifacts (no
leaf of a constructed Poly is null), and a Poly built entirely from Null
artifacts (including nested all-null Poly inputs) has zero leaves, reports
`exists = true` (conjunction over the empty leaf set), age `timedelta.max`,
and `is_null = true`. -/
theorem polyArtifact_discards_null (now : Int) (L M : List Artifact)
    (hM : Artifact.deepNullAll M = true) :
    (∀ a ∈ Artifact.leaves (Artifact.mkPoly L), Artifact.isNull a = false) ∧
    Artifact.leaves (Artifact.mkPoly M) = [] ∧
    Artifact.existsb (Artifact.mkPoly M) = true ∧
    Artifact.age now (Artifact.mkPoly M) = .maxDelta ∧
    Artifact.isNull (Artifact.mkPoly M) = true := by
  have hM0 : Artifact.findLeaves M = [] := Artifact.findLeaves_eq_nil_of_deepNull M hM
  refine ⟨?_, ?_, ?_, ?_, ?_⟩
  · intro a ha
    simp only [Artifact.mkPoly, Artifact.leaves] at ha
    exact Artifact.isNull_of_mem_findLeaves L a
      (Artifact.mem_uniq_subset _ a ha)
  · simp [Artifact.mkPoly, Artifact.leaves, hM0, Artifact.uniq]
  · simp [Artifact.mkPoly, hM0, Artifact.uniq, Artifact.existsb, Artifact.existsbAll]
  · simp [Artifact.mkPoly, hM0, Artifact.uniq, Artifact.age, Artifact.ageAll,
      TDelta.listMin]
  · simp [Artifact.mkPoly, hM0, Artifact.uniq, Artifact.isNull, Artifact.isNullAll]

/-- Witness for `polyArtifact_discards_null` at concrete inputs: the list
`[null, poly [null]]` is built entirely from Null artifacts, and the Poly
constructed from it has no leaves, exists, has maximal age, and is null. -/
theorem polyArtifact_discards_null_witness :
    Artifact.deepNullAll [.null, .poly [.null]] = true ∧
    (Artifact.leaves (Artifact.mkPoly [.null, .poly [.null]]) = [] ∧
     Artifact.existsb (Artifact.mkPoly [.null, .poly [.null]]) = true ∧
     Artifact.age 0 (Artifact.mkPoly [.null, .poly [.null]]) = .maxDelta ∧
     Artifact.isNull (Artifact.mkPoly [.null, .poly [.null]]) = true) ∧
    Artifact.isNull (Artifact.value 7) = false :=
  ⟨rfl,
   (polyArtifact_discards_null 0 [.value 7] [.null, .poly [.null]] rfl).2,
   (polyArtifact_discards_null 0 [.value 7] [.null, .poly [.null]] rfl).1
     (Artifact.value 7) (by simp [Artifact.mkPoly, Artifact.findLeaves,
        Artifact.findLeavesOne, Artifact.isNull, Artifact.uniq, Artifact.leaves])⟩

/-- Outcome of one parallel branch as collected by
`asyncio.gather(..., return_exceptions=True)` (poly.py lines 75-79): either
the branch's result or the exception the branch raised.  Collecting with
`return_exceptions=True` lets every branch run to completion; no branch's
exception cancels the others. -/
inductive Branch (E A : Type) where
  | exc (e : E)
  | res (a : A)

/-- `isinstance(v, Exception)` on a collected branch value. -/
def Branch.isExc {E A : Type} : Branch E A → Bool
  | .exc _ => true
  | .res _ => false

/-- Result of `AggregateError.aggregate` (errors.py lines 38-43): either the
tuple of values returned unchanged, or a raised `AggregateError` carrying the
list of collected errors. -/
inductive AggOutcome (E A : Type) where
  | ok (values : List (Branch E A))
  | raisedAggregate (errors : List E)

/-- The error list built by `aggregate`:
`errors = [v for v in values if isinstance(v, Exception)]`. -/
def aggErrors {E A : Type} (values : List (Branch E A)) : List E :=
  values.filterMap fun v =>
    match v with
    | .exc e => some e
    | .res _ => none

/-- `AggregateError.aggregate` (errors.py lines 38-43): collect the values
that are exceptions; if any, raise `AggregateError(errors)`; otherwise return
the values unchanged. -/
def aggregate {E A : Type} (values : List (Branch E A)) : AggOutcome E A :=
  let errors := aggErrors values
  if errors.isEmpty then .ok values else .raisedAggregate errors

/-- Spec-side ordered list of the failing branches' errors. -/
def specFailures {E A : Type} : List (Branch E A) → List E
  | [] => []
  | .exc e :: rest => e :: specFailures rest
  | .res _ :: rest => specFailures rest

/-- The code's error list is the spec-side ordered list of failures. -/
theorem aggErrors_eq_specFailures {E A : Type} :
    ∀ values : List (Branch E A), aggErrors values = specFailures values
  | [] => rfl
  | .exc e :: rest => by
      have ih := aggErrors_eq_specFailures rest
      simp only [aggErrors, List.filterMap_cons] at ih ⊢
      simp [specFailures, ih]
  | .res a :: rest => by
      have ih := aggErrors_eq_specFailures rest
      simp only [aggErrors, List.filterMap_cons] at ih ⊢
      simp [specFailures, ih]

/-- Every spec-side failure comes from a failing branch of the input. -/
theorem mem_specFailures {E A : Type} :
    ∀ (values : List (Branch E A)) (e : E),
      e ∈ specFailures values → Branch.exc (A := A) e ∈ values
  | [], e => by simp [specFailures]
  | .exc e0 :: rest, e => by
      simp only [specFailures, List.mem_cons]
      rintro (rfl | h)
      · exact Or.inl rfl
      · exact Or.inr (mem_specFailures rest e h)
  | .res a :: rest, e => by
      simp only [specFailures, List.mem_cons]
      intro h
      exact Or.inr (mem_specFailures rest e h)

/-- No failing branch's error is lost by `specFailures`. -/
theorem specFailures_ne_nil {E A : Type} :
    ∀ (values : List (Branch E A)) (v : Branch E A),
      v ∈ values → v.isExc = true → specFailures values ≠ []
  | [], v => by simp
  | .exc e :: rest, v => by
      intro _ _
      simp [specFailures]
  | .res a :: rest, v => by
      simp only [List.mem_cons, specFailures]
      rintro (rfl | h) hexc
      · simp [Branch.isExc] at hexc
      · exact specFailures_ne_nil rest v h hexc

/-- C5: the aggregation operation over all collected branch outcomes:
if at least one branch raised, a single composite `AggregateError` is raised
carrying exactly the failing branches' errors in branch order (no successful
result is mixed in); if no branch raised, the list of successful results is
returned unchanged. -/
theorem aggregate_errors_or_results {E A : Type} (values : List (Branch E A))
    (v : Branch E A) (hv : v ∈ values) (hexc : v.isExc = true) :
    (aggregate values = .raisedAggregate (specFailures values) ∧
     (∀ e ∈ specFailures values, Branch.exc (A := A) e ∈ values)) ∧
    (∀ ws : List (Branch E A), (∀ w ∈ ws, w.isExc = false) →
       aggregate ws = .ok ws) := by
  constructor
  · constructor
    · have hne := specFailures_ne_nil values v hv hexc
      simp [aggregate, aggErrors_eq_specFailures, List.isEmpty_iff, hne]
    · exact fun e he => mem_specFailures values e he
  · intro ws hws
    have : specFailures ws = [] := by
      induction ws with
      | nil => rfl
      | cons w rest ih =>
          cases w with
          | exc e =>
              have := hws (.exc e) (List.mem_cons_self _ _)
              simp [Branch.isExc] at this
          | res a =>
              simp only [specFailures]
              exact ih fun w hw => hws w (List.mem_cons_of_mem _ hw)
    simp [aggregate, aggErrors_eq_specFailures, this]

/-- Witness for `aggregate_errors_or_results`: three branches where branches
1 and 3 fail and branch 2 succeeds yield exactly the two failures, in order;
an all-success list is returned unchanged. -/
theorem aggregate_errors_or_results_witness :
    aggregate [Branch.exc "e1", Branch.res (2 : Int), Branch.exc "e3"] =
      .raisedAggregate ["e1", "e3"] ∧
    aggregate [Branch.res (1 : Int), Branch.res 2] =
      .ok (E := String) [Branch.res 1, Branch.res 2] := by
  have h := aggregate_errors_or_results
    [Branch.exc "e1", Branch.res (2 : Int), Branch.exc "e3"]
    (Branch.exc "e1") (List.mem_cons_self _ _) rfl
  refine ⟨?_, h.2 [Branch.res 1, Branch.res 2] ?_⟩
  · have h1 := h.1.1
    simpa [specFailures] using h1
  · intro w hw
    simp only [List.mem_cons, List.mem_singleton, List.not_mem_nil] at hw
    rcases hw with rfl | rfl | h0
    · rfl
    · rfl
    · cases h0

/-- Character-list version of "`needle` begins `hay`". -/
def chStarts : List Char → List Char → Bool
  | [], _ => true
  | _ :: _, [] => false
  | a :: as, b :: bs => a == b && chStarts as bs

/-- Character-list version of "`needle` occurs inside `hay`". -/
def chContains (needle : List Char) : List Char → Bool
  | [] => chStarts needle []
  | b :: bs => chStarts needle (b :: bs) || chContains needle bs

/-- "`needle` occurs as a substring of `hay`". -/
def strContains (needle hay : String) : Bool :=
  chContains needle.toList hay.toList

theorem chStarts_append (n t : List Char) : chStarts n (n ++ t) = true := by
  induction n with
  | nil => rfl
  | cons a as ih => simp [chStarts, ih]

theorem chContains_nil_needle (h : List Char) : chContains [] h = true := by
  induction h with
  | nil => rfl
  | cons b bs ih => simp [chContains, chStarts]

theorem chContains_self_append (n t : List Char) :
    chContains n (n ++ t) = true := by
  cases n with
  | nil => exact chContains_nil_needle t
  | cons a as =>
      have h1 := chStarts_append (a :: as) t
      simp only [List.cons_append] at h1
      simp [chContains, List.append_eq, h1]

theorem chContains_append (p n t : List Char) :
    chContains n (p ++ (n ++ t)) = true := by
  induction p with
  | nil => simpa using chContains_self_append n t
  | cons b bs ih =>
      simp only [List.cons_append, chContains, List.append_eq, ih, Bool.or_true]

/-- The `BuildError` message raised by `ShellRecipe.make` on a failing return
code (shell.py lines 331-333):
`"ShellCommand has failed (returncode: %d)" % returncode`. -/
def failMessage (rc : Int) : String :=
  "ShellCommand has failed (returncode: " ++ toString rc ++ ")"

/-- The message raised on failure names the return code. -/
theorem failMessage_contains_returncode (rc : Int) :
    strContains (toString rc) (failMessage rc) = true := by
  have h : (failMessage rc).data =
      "ShellCommand has failed (returncode: ".data ++
        ((toString rc).data ++ ")".data) := by
    simp [failMessage, String.data_append]
  simp only [strContains, String.toList, h]
  exact chContains_append _ _ _

/-- Outcome of the post-spawn part of `ShellRecipe.make`. -/
inductive ShellMakeOutcome where
  | ok
  | raisedBuildError (surfaced : List String) (message : String)
deriving DecidableEq

/-- The post-spawn logic of `ShellRecipe.make` (shell.py lines 325-339) for a
command `cmd` whose subprocess exits with return code `rc` after producing
`stderrLines` on stderr: if `rc` is in the configured success-code set, the
recipe succeeds (stdout/stderr echoing under `verbose` aside); otherwise each
captured stderr line is surfaced to the log and
`BuildError("ShellCommand has failed (returncode: %d)" % rc)` is raised.
`cmd` (`self._cmd`) is in scope in the source but does not appear in the
raised error. -/
def shellSpawnOutcome (cmd : String) (codes : List Int) (rc : Int)
    (stderrLines : List String) : ShellMakeOutcome :=
  if rc ∈ codes then .ok else .raisedBuildError stderrLines (failMessage rc)

/-- The default `success_codes` of `ShellRecipe.__init__`
(shell.py line 224): `{0}`. -/
def defaultSuccessCodes : List Int := [0]

/-- C6 counterexample: for the concrete failing run of the command
`"gcc -o foo foo.c"` with return code 1 under the default success codes, the
raised build failure's message does not contain the command text, contrary to
the claim that the failure names both the command text and the return
code. -/
theorem shellFailure_not_named_command :
    shellSpawnOutcome "gcc -o foo foo.c" defaultSuccessCodes 1 ["boom"] =
      .raisedBuildError ["boom"] (failMessage 1) ∧
    strContains "gcc -o foo foo.c" (failMessage 1) = false := by
  constructor
  · rfl
  · rfl

/-- C6 (amended): shell recipe success holds iff the subprocess return code
is in the configured success-code set (default `{0}`); on failure the
captured stderr lines are surfaced and a build failure is raised naming the
return code (but not the command text). -/
theorem shellSpawnOutcome_success_iff (cmd : String) (codes : List Int)
    (rc : Int) (errs : List String) (hrc : rc ∉ codes) :
    (∀ rc2, shellSpawnOutcome cmd codes rc2 errs = .ok ↔ rc2 ∈ codes) ∧
    shellSpawnOutcome cmd codes rc errs =
      .raisedBuildError errs (failMessage rc) ∧
    strContains (toString rc) (failMessage rc) = true ∧
    defaultSuccessCodes = [0] := by
  refine ⟨?_, ?_, failMessage_contains_returncode rc, rfl⟩
  · intro rc2
    by_cases h : rc2 ∈ codes <;> simp [shellSpawnOutcome, h]
  · simp [shellSpawnOutcome, hrc]

/-- Witness for `shellSpawnOutcome_success_iff` at concrete inputs: return
code 1 is not a default success code, the failure surfaces the stderr lines
and names the return code; return code 0 succeeds. -/
theorem shellSpawnOutcome_success_iff_witness :
    (1 : Int) ∉ defaultSuccessCodes ∧
    shellSpawnOutcome "false" defaultSuccessCodes 1 ["oops"] =
      .raisedBuildError ["oops"] (failMessage 1) ∧
    shellSpawnOutcome "true" defaultSuccessCodes 0 [] = .ok := by
  have h := shellSpawnOutcome_success_iff "false" defaultSuccessCodes 1 ["oops"]
    (by decide)
  exact ⟨by decide, h.2.1,
    ((shellSpawnOutcome_success_iff "true" defaultSuccessCodes 1 []
        (by decide)).1 0).mpr (by decide)⟩

/-- Outcome of `ShellRecipe.make` including the memoization paths. -/
inductive ShellMakeResult where
  | ok
  | raisedPrevFailure
  | raisedNewFailure (surfaced : List String) (message : String)
deriving DecidableEq

/-- The post-state and behavior of one `ShellRecipe.make` call. -/
structure MakeStep where
  rcAfter : Option Int
  spawned : Bool
  outcome : ShellMakeResult
deriving DecidableEq

/-- `ShellRecipe.make` (shell.py lines 299-345) as a transition on the
captured return code `self._result._returncode`:
if a return code has already been captured, return immediately when it is in
the success set and raise `BuildError("ShellRecipe has failed previously.")`
otherwise — in both cases without spawning a subprocess (lines 302-306);
otherwise spawn the subprocess (modelled by its eventual return code
`spawnRc` and captured stderr `spawnErr`), capture the return code, and raise
a `BuildError` naming the return code when it is not in the success set
(lines 308-345). -/
def shellMake (rc : Option Int) (codes : List Int) (spawnRc : Int)
    (spawnErr : List String) : MakeStep :=
  match rc with
  | some c =>
      if c ∈ codes then ⟨some c, false, .ok⟩
      else ⟨some c, false, .raisedPrevFailure⟩
  | none =>
      if spawnRc ∈ codes then ⟨some spawnRc, true, .ok⟩
      else ⟨some spawnRc, true, .raisedNewFailure spawnErr (failMessage spawnRc)⟩

/-- `ShellRecipe.is_done` when `self._result.file.is_null` (shell.py lines
255-262): a return code has been captured and it is in the success set. -/
def shellIsDoneNullFile (rc : Option Int) (codes : List Int) : Bool :=
  match rc with
  | none => false
  | some c => decide (c ∈ codes)

/-- C9: once a return code has been captured, `ShellRecipe.make` never spawns
a second subprocess: it returns immediately when the captured code is in the
success set and raises the previous failure otherwise, leaving the captured
code unchanged; and with a null output file `is_done` is true exactly when a
return code has been captured and is in the success set. -/
theorem shellMake_memoized (c : Int) (codes : List Int) (spawnRc : Int)
    (errs : List String) :
    (shellMake (some c) codes spawnRc errs).spawned = false ∧
    (shellMake (some c) codes spawnRc errs).rcAfter = some c ∧
    (c ∈ codes → (shellMake (some c) codes spawnRc errs).outcome = .ok) ∧
    (c ∉ codes →
      (shellMake (some c) codes spawnRc errs).outcome = .raisedPrevFailure) ∧
    shellIsDoneNullFile (some c) codes = decide (c ∈ codes) ∧
    shellIsDoneNullFile none codes = false := by
  by_cases h : c ∈ codes <;>
    simp [shellMake, shellIsDoneNullFile, h]

/-- Witness for `shellMake_memoized` at concrete inputs: a captured success
code 0 returns ok without spawning; a captured failure code 2 raises the
previous failure without spawning. -/
theorem shellMake_memoized_witness :
    (shellMake (some 0) defaultSuccessCodes 7 []).spawned = false ∧
    (shellMake (some 0) defaultSuccessCodes 7 []).outcome = .ok ∧
    (shellMake (some 2) defaultSuccessCodes 7 []).outcome =
      .raisedPrevFailure :=
  ⟨(shellMake_memoized 0 defaultSuccessCodes 7 []).1,
   (shellMake_memoized 0 defaultSuccessCodes 7 []).2.2.1 (by decide),
   (shellMake_memoized 2 defaultSuccessCodes 7 []).2.2.2.1 (by decide)⟩

/-- The filesystem as the list of currently existing paths (a file and a
directory are both modelled as one removable path). -/
abbrev FS := List String

/-- `Path.exists()` / `FileArtifact.exists` (files.py line 36). -/
def fsExists (fs : FS) (p : String) : Bool := decide (p ∈ fs)

/-- `FileArtifact.clean` (files.py lines 49-57): if the path exists, remove
it (`unlink` for a file, recursive `rmtree` for a directory — both modelled
as removal of the path); otherwise do nothing, raising no error. -/
def fileClean (fs : FS) (p : String) : FS :=
  if fsExists fs p then fs.filter (fun q => decide (q ≠ p)) else fs

/-- `Recipe.clean` (recipes.py lines 177-184) for a recipe whose output is a
`FileArtifact` at path `p`: if the output exists, clean it (delete the path);
otherwise do nothing.  No dependency's artifact is touched. -/
def recipeClean (fs : FS) (p : String) : FS :=
  if fsExists fs p then fileClean fs p else fs

/-- C8: `clean` deletes the recipe's own output artifact when it exists,
is a no-op (raising no error) when the output does not exist, and leaves
every other path — in particular the outputs of all dependency recipes —
unchanged. -/
theorem recipeClean_frame (fs : FS) (p : String)
    (hmiss : fsExists fs p = false) (fs2 : FS) (p2 : String) :
    recipeClean fs p = fs ∧
    fsExists (recipeClean fs2 p2) p2 = false ∧
    (∀ q, q ≠ p2 → fsExists (recipeClean fs2 p2) q = fsExists fs2 q) := by
  refine ⟨by simp [recipeClean, hmiss], ?_, ?_⟩
  · by_cases h : p2 ∈ fs2
    · simp [recipeClean, fileClean, fsExists, h, List.mem_filter]
    · simp [recipeClean, fileClean, fsExists, h]
  · intro q hq
    by_cases h : p2 ∈ fs2
    · simp [recipeClean, fileClean, fsExists, h, List.mem_filter, hq]
    · simp [recipeClean, fileClean, fsExists, h]

/-- Witness for `recipeClean_frame` at concrete inputs: cleaning the missing
path `"b"` on the filesystem `["a"]` is a no-op; cleaning the present path
`"o"` on `["o", "d"]` removes `"o"` and leaves the dependency output `"d"`
unchanged. -/
theorem recipeClean_frame_witness :
    fsExists ["a"] "b" = false ∧
    recipeClean ["a"] "b" = ["a"] ∧
    fsExists (recipeClean ["o", "d"] "o") "o" = false ∧
    fsExists (recipeClean ["o", "d"] "o") "d" = fsExists ["o", "d"] "d" := by
  have h := recipeClean_frame ["a"] "b" (by decide) ["o", "d"] "o"
  exact ⟨by decide, h.1, h.2.1, h.2.2 "d" (by decide)⟩

/-- The observable outcome of `Recipe.resolve` for its caller: the coroutine
returns normally, or it raises. -/
inductive ResolveOutcome where
  | ok
  | raised
deriving DecidableEq

/-- One resolution attempt of a recipe, abstracted by the predicates the
control flow of `Recipe.resolve` branches on. -/
structure RecipeRun where
  /-- `self.is_done` when `resolve` acquires the lock (recipes.py line 158). -/
  isDone : Bool
  /-- Whether `await self.make()` raises (line 163). -/
  makeRaises : Bool
  /-- `self.is_done` after `make` completes, checked by `assert_is_done`
  (lines 128-130 and 164). -/
  doneAfterMake : Bool

/-- `Recipe.resolve` (recipes.py lines 154-170): under the recipe's lock, if
`is_done` return immediately; otherwise run `resolve_deps`, `make` and
`assert_is_done` inside `try:`; any exception — a dependency failure raised
by `resolve_deps` (modelled by `depsFailed`), an exception from `make`, or
the `BuildError` from `assert_is_done` — is logged and re-raised only when
`config.debug` is set (lines 167-170); with `debug` unset, `resolve` returns
normally. -/
def resolveOutcome (debug : Bool) (r : RecipeRun) (depsFailed : Bool) :
    ResolveOutcome :=
  if r.isDone then .ok
  else if depsFailed || r.makeRaises || !r.doneAfterMake then
    (if debug then .raised else .ok)
  else .ok

/-- C3 counterexample: with `config.debug` unset (the default when the
`PANIFEX_DEBUG` environment variable is absent, config.py line 63), a recipe
that is not done, whose dependencies resolve, and whose `make` completes
while `is_done` is still false makes `resolve` return normally — the caught
`BuildError` from `assert_is_done` is logged, not propagated; likewise when a
dependency fails. The claim that `resolve` raises to its caller is false. -/
theorem resolve_swallows_failure :
    resolveOutcome false ⟨false, false, false⟩ false = .ok ∧
    resolveOutcome false ⟨false, true, false⟩ false = .ok ∧
    resolveOutcome false ⟨false, false, true⟩ true = .ok := by
  exact ⟨rfl, rfl, rfl⟩

/-- C3 (amended): `Recipe.resolve` propagates build failures to its caller
as a raised error only when debug mode is enabled: with `debug` true it
raises exactly when the recipe was not already done and either a dependency
resolution failed, or `make` raised, or `make` completed with `is_done` still
false; with `debug` false it always returns normally, the failure having been
logged. -/
theorem resolve_raises_iff_debug (r : RecipeRun) (depsFailed : Bool) :
    (resolveOutcome true r depsFailed = .raised ↔
      r.isDone = false ∧
        (depsFailed = true ∨ r.makeRaises = true ∨ r.doneAfterMake = false)) ∧
    resolveOutcome false r depsFailed = .ok := by
  constructor
  · rcases r with ⟨d, m, a⟩
    cases d <;> cases m <;> cases a <;> cases depsFailed <;>
      simp [resolveOutcome]
  · rcases r with ⟨d, m, a⟩
    cases d <;> cases m <;> cases a <;> cases depsFailed <;>
      simp [resolveOutcome]

/-- The state shared by all callers of one recipe's `resolve`: the recipe's
own `asyncio.Lock` (recipes.py line 44), the recipe's `is_done` flag after
work has completed, and the number of times the recipe's work (`make`) has
been invoked. -/
structure Shared where
  lock : Bool
  done : Bool
  cnt : Nat
deriving DecidableEq

/-- Control points of one caller executing `Recipe.resolve` (recipes.py
lines 154-170): before `async with self._lock` (`start`), holding the lock
at the `if not self.is_done` test (`check`), about to run the recipe's work
(`work`), about to release the lock (`unlock`), and done (`finished`).
Cooperative `asyncio` scheduling may interleave callers at every await
point; the lock admits only one caller between `check` and `unlock`. -/
inductive PC where
  | start
  | check
  | work
  | unlock
  | finished
deriving DecidableEq

/-- One caller's atomic steps through `Recipe.resolve`: acquire the free
lock; test `is_done` and either skip (`checkDone`) or proceed to the work
(`checkNotDone`); run `resolve_deps`/`make`/`assert_is_done` successfully,
which completes the work, makes `is_done` true and counts one invocation of
the work function (`doWork`); release the lock. -/
inductive TaskStep : PC → Shared → PC → Shared → Prop where
  | acquire (d : Bool) (c : Nat) :
      TaskStep .start ⟨false, d, c⟩ .check ⟨true, d, c⟩
  | checkDone (l : Bool) (c : Nat) :
      TaskStep .check ⟨l, true, c⟩ .unlock ⟨l, true, c⟩
  | checkNotDone (l : Bool) (c : Nat) :
      TaskStep .check ⟨l, false, c⟩ .work ⟨l, false, c⟩
  | doWork (l d : Bool) (c : Nat) :
      TaskStep .work ⟨l, d, c⟩ .unlock ⟨l, true, c + 1⟩
  | release (l d : Bool) (c : Nat) :
      TaskStep .unlock ⟨l, d, c⟩ .finished ⟨false, d, c⟩

/-- Joint state of two parallel dependents resolving the same recipe object
(a diamond dependency). -/
structure SysState where
  pc1 : PC
  pc2 : PC
  sh : Shared

/-- Interleaving semantics: either caller takes its next step. -/
inductive SysStep : SysState → SysState → Prop where
  | left {p1 p1' p2 : PC} {sh sh' : Shared} :
      TaskStep p1 sh p1' sh' → SysStep ⟨p1, p2, sh⟩ ⟨p1', p2, sh'⟩
  | right {p1 p2 p2' : PC} {sh sh' : Shared} :
      TaskStep p2 sh p2' sh' → SysStep ⟨p1, p2, sh⟩ ⟨p1, p2', sh'⟩

/-- States reachable within one build invocation: both callers at `start`,
lock free, no work performed yet, the recipe initially done or not. -/
inductive Reach : SysState → Prop where
  | init (d : Bool) : Reach ⟨.start, .start, ⟨false, d, 0⟩⟩
  | step {s s' : SysState} : Reach s → SysStep s s' → Reach s'

/-- A caller is inside the lock-protected region. -/
def inRegion : PC → Bool
  | .start => false
  | .finished => false
  | _ => true

/-- Inductive invariant of the two-caller protocol: mutual exclusion inside
the region, the lock is held exactly when a caller is inside, a caller at
`work` saw `is_done` false, the work count is zero until the work makes the
recipe done, and the work runs at most once. -/
def ProtInv (s : SysState) : Prop :=
  ¬(inRegion s.pc1 = true ∧ inRegion s.pc2 = true) ∧
  s.sh.lock = (inRegion s.pc1 || inRegion s.pc2) ∧
  (s.pc1 = .work → s.sh.done = false) ∧
  (s.pc2 = .work → s.sh.done = false) ∧
  (s.sh.done = false → s.sh.cnt = 0) ∧
  s.sh.cnt ≤ 1

theorem inv_init (d : Bool) : ProtInv ⟨.start, .start, ⟨false, d, 0⟩⟩ := by
  simp [ProtInv, inRegion]

theorem inv_step {s s' : SysState} (hinv : ProtInv s) (hstep : SysStep s s') :
    ProtInv s' := by
  cases hstep with
  | left h =>
      rename_i p1 p1' p2 sh sh'
      cases h <;> cases p2 <;> simp_all [ProtInv, inRegion]
  | right h =>
      rename_i p1 p2 p2' sh sh'
      cases h <;> cases p1 <;> simp_all [ProtInv, inRegion]

theorem reach_inv {s : SysState} (h : Reach s) : ProtInv s := by
  induction h with
  | init d => exact inv_init d
  | step _ hstep ih => exact inv_step ih hstep

/-- C2: when the same recipe object is resolved from two parallel dependents,
the work function is invoked at most once per build invocation (in every
reachable interleaving the invocation count is at most 1), and a caller that
reaches the `is_done` test after the work has completed can only skip to the
lock release, invoking no work and leaving the state unchanged. -/
theorem resolve_work_at_most_once (s : SysState) (hs : Reach s)
    (sh : Shared) (p' : PC) (sh' : Shared) (hdone : sh.done = true)
    (hstep : TaskStep .check sh p' sh') :
    s.sh.cnt ≤ 1 ∧ p' = .unlock ∧ sh' = sh := by
  refine ⟨(reach_inv hs).2.2.2.2.2, ?_⟩
  cases hstep with
  | checkDone l c => exact ⟨rfl, rfl⟩
  | checkNotDone l c => simp at hdone

theorem resolve_work_at_most_once_witness :
    (⟨.finished, .finished, ⟨false, true, 1⟩⟩ : SysState).sh.cnt ≤ 1 ∧
    PC.unlock = PC.unlock ∧ (⟨true, true, 1⟩ : Shared) = ⟨true, true, 1⟩ := by
  have h0 : Reach ⟨.start, .start, ⟨false, false, 0⟩⟩ := Reach.init false
  have h1 : Reach ⟨.check, .start, ⟨true, false, 0⟩⟩ :=
    h0.step (SysStep.left (TaskStep.acquire false 0))
  have h2 : Reach ⟨.work, .start, ⟨true, false, 0⟩⟩ :=
    h1.step (SysStep.left (TaskStep.checkNotDone true 0))
  have h3 : Reach ⟨.unlock, .start, ⟨true, true, 1⟩⟩ :=
    h2.step (SysStep.left (TaskStep.doWork true false 0))
  have h4 : Reach ⟨.finished, .start, ⟨false, true, 1⟩⟩ :=
    h3.step (SysStep.left (TaskStep.release true true 1))
  have h5 : Reach ⟨.finished, .check, ⟨true, true, 1⟩⟩ :=
    h4.step (SysStep.right (TaskStep.acquire true 1))
  have h6 : Reach ⟨.finished, .unlock, ⟨true, true, 1⟩⟩ :=
    h5.step (SysStep.right (TaskStep.checkDone true 1))
  have h7 : Reach ⟨.finished, .finished, ⟨false, true, 1⟩⟩ :=
    h6.step (SysStep.right (TaskStep.release true true 1))
  exact resolve_work_at_most_once _ h7 ⟨true, true, 1⟩ .unlock ⟨true, true, 1⟩
    rfl (TaskStep.checkDone true 1)

mutual
/-- Spec-side transitive closure of a recipe's dependency relation (spec §3:
"`dependencies` (transitive closure)"): every direct dependency followed by
all of its own transitive dependencies, recursively. -/
def transitiveDeps : Recipe → List Recipe
  | .mk _ _ ds => transitiveDepsList ds

/-- Transitive dependencies contributed by a dependency list. -/
def transitiveDepsList : List Recipe → List Recipe
  | [] => []
  | r :: rest => r :: (transitiveDeps r ++ transitiveDepsList rest)
end

/-- A three-deep chain of recipes: `recA` depends on `recB`, which depends on
`recC`. -/
def recC : Recipe := Recipe.mk "c" .null []

/-- Middle recipe of the chain. -/
def recB : Recipe := Recipe.mk "b" .null [recC]

/-- Top recipe of the chain. -/
def recA : Recipe := Recipe.mk "a" .null [recB]

/-- C7 counterexample: `recC` is a transitive dependency of `recA`, but
`Recipe.dependencies` on `recA` returns only the immediate list `[recB]`,
which does not contain `recC` — `dependencies` is not the transitive
closure. -/
theorem dependencies_not_transitive :
    recC ∈ transitiveDeps recA ∧ recC ∉ Recipe.dependencies recA := by
  constructor
  · simp [transitiveDeps, transitiveDepsList, recA, recB]
  · intro h
    simp only [Recipe.dependencies, Recipe.deps, recA, List.mem_singleton] at h
    have h2 : Recipe.name recC = Recipe.name recB := congrArg Recipe.name h
    simp [recC, recB, Recipe.name] at h2

/-- C7 (amended): `Recipe.dependencies` returns the recipe's immediate
dependency list exactly as stored by the constructor (not the transitive
closure), and `Recipe.direct_dependencies` returns the immediate dependencies
sorted by name. -/
theorem dependencies_immediate_and_sorted (r : Recipe) :
    Recipe.dependencies r = r.deps ∧
    List.Perm (Recipe.directDependencies r) r.deps ∧
    List.Sorted (fun a b : Recipe => a.name ≤ b.name)
      (Recipe.directDependencies r) := by
  refine ⟨rfl, List.perm_insertionSort _ _, ?_⟩
  haveI : IsTotal Recipe (fun a b : Recipe => a.name ≤ b.name) :=
    ⟨fun a b => le_total a.name b.name⟩
  haveI : IsTrans Recipe (fun a b : Recipe => a.name ≤ b.name) :=
    ⟨fun _ _ _ hab hbc => le_trans hab hbc⟩
  exact List.sorted_insertionSort _ _
